import Mathlib

/-
Verification of the affiliation-classification and record-extraction engine
in src/backend_takehome/filter.py against its design specification.

Modelling conventions:
  - Python strings are Lean `String` values (a structure over `List Char`).
  - `str.lower()` is modelled for the ASCII range, which covers every
    keyword in the module-level vocabularies.
  - Every regular-expression search performed by the module is modelled by
    a hand-written matcher.  Each of the module's patterns is deterministic:
    at every quantifier the character class of the quantified atom is
    disjoint from the class of the following atom, so the greedy match is
    forced and no backtracking can occur; `re.search` is then the leftmost
    position at which the forced match succeeds.
  - Python dict records become an `Article` structure whose fields are
    `Option`-valued (`none` = key absent).
  - The `try/except` in `filter_papers` is modelled by running the
    extractor through `Except`; the module's own extractor is total.
-/

set_option maxRecDepth 4000

/-! ### Characters and elementary string operations -/

def lowerChar (c : Char) : Char :=
  if 'A' ≤ c && c ≤ 'Z' then Char.ofNat (c.toNat + 32) else c

def lowerStr (s : String) : String := String.mk (s.data.map lowerChar)

/-- Does the first list occur as a leading segment of the second? -/
def listStartsWith : List Char → List Char → Bool
  | [], _ => true
  | _ :: _, [] => false
  | a :: as, b :: bs => a == b && listStartsWith as bs

/-- Does the first list occur as a contiguous subsequence of the second?
Models the Python substring test `needle in hay`. -/
def listContainsSeq (needle : List Char) : List Char → Bool
  | [] => needle.isEmpty
  | c :: rest => listStartsWith needle (c :: rest) || listContainsSeq needle rest

def strContains (needle hay : String) : Bool := listContainsSeq needle.data hay.data

/-- Membership of a single character, `c in s`. -/
def strContainsChar (s : String) (c : Char) : Bool := s.data.contains c

/-- `str.split(sep)` for a one-character separator: always returns at
least one (possibly empty) segment. -/
def splitOnChar (t : Char) : List Char → List (List Char)
  | [] => [[]]
  | c :: rest =>
    if c == t then [] :: splitOnChar t rest
    else
      match splitOnChar t rest with
      | p :: ps => (c :: p) :: ps
      | [] => [[c]]

/-- `str.replace(t, rep)` for a one-character needle: every occurrence is
replaced. -/
def replaceChar (t : Char) (rep : List Char) : List Char → List Char
  | [] => []
  | c :: rest =>
    if c == t then rep ++ replaceChar t rep rest
    else c :: replaceChar t rep rest

/-- `sep.join(xs)`. -/
def joinWithSep (sep : String) : List String → String
  | [] => ""
  | [x] => x
  | x :: y :: rest => x ++ sep ++ joinWithSep sep (y :: rest)

def isUpperChar (c : Char) : Bool := 'A' ≤ c && c ≤ 'Z'

def isLowerChar (c : Char) : Bool := 'a' ≤ c && c ≤ 'z'

def isDigitChar (c : Char) : Bool := '0' ≤ c && c ≤ '9'

/-- The regex word class `\w` restricted to ASCII input. -/
def isWordChar (c : Char) : Bool :=
  isUpperChar c || isLowerChar c || isDigitChar c || c == '_'

/-- Python whitespace for `\s`, `str.split()` and `str.strip()` (ASCII range). -/
def isPySpace (c : Char) : Bool :=
  c == ' ' || c == '\t' || c == '\n' || c == '\r' || c == '\x0b' || c == '\x0c'

/-- `str.strip()` on a character list. -/
def pyStripChars (cs : List Char) : List Char :=
  ((cs.dropWhile isPySpace).reverse.dropWhile isPySpace).reverse

/-! ### The module-level keyword vocabularies (filter.py lines 12-32).
They are Python `set`s used only for existential membership-style scans,
so a list is a faithful carrier. -/

def academicKeywords : List String :=
  [ "university", "college", "institute", "school", "academy", "faculty",
    "hospital", "clinic", "medical center", "health center", "laboratory",
    "research center", "national", "federal", "ministry", "department",
    "center for", "centre for", "institution", "foundation", "association" ]

def pharmaBiotechKeywords : List String :=
  [ "pharma", "pharmaceutical", "biotech", "bioscience", "therapeutics",
    "biologics", "biopharmaceutical", "laboratories", "labs", "inc", "llc",
    "ltd", "limited", "corp", "corporation", "co.", "company", "gmbh",
    "biopharma", "genomics", "health", "technologies", "diagnostics",
    "genentech", "moderna", "pfizer", "astrazeneca", "novartis" ]

def academicEmailDomains : List String :=
  [ "edu", "ac.uk", "ac.jp", "edu.au", "ac.cn", "ac.in", "edu.sg",
    "uni-", ".uni.", "nih.gov", "gov", "org", "net" ]

/-- `any(keyword in affiliation_lower for keyword in kws)`. -/
def containsKeywordIn (kws : List String) (aff : String) : Bool :=
  kws.any (fun kw => strContains kw (lowerStr aff))

/-! ### is_academic_affiliation (filter.py lines 34-54) -/

def is_academic_affiliation (aff : String) : Bool :=
  if aff == "" then false
  else containsKeywordIn academicKeywords aff

/-! ### is_academic_email (filter.py lines 91-117)
`email_lower.split('@')[1]` takes the segment after the first `@`;
a missing `@` raises IndexError, which the function turns into `false`. -/

def is_academic_email (email : String) : Bool :=
  if email == "" then false
  else
    match (splitOnChar '@' (lowerStr email).data).get? 1 with
    | none => false
    | some domain =>
      academicEmailDomains.any (fun d => listContainsSeq d.data domain)

/-! ### Deterministic matchers for the regular expressions of filter.py

`searchFromB` / `searchCap` model `re.search`: the pattern is attempted at
every position from the left, and the first success wins.  Matchers that
model a pattern anchored by `\b` receive the character immediately before
the attempted position (`none` at the start of the string). -/

def searchFromB (m : Option Char → List Char → Bool) : Option Char → List Char → Bool
  | prev, [] => m prev []
  | prev, c :: rest => m prev (c :: rest) || searchFromB m (some c) rest

def reSearchB (m : Option Char → List Char → Bool) (cs : List Char) : Bool :=
  searchFromB m none cs

def searchCap (m : List Char → Option (List Char)) : List Char → Option (List Char)
  | [] => m []
  | c :: rest =>
    match m (c :: rest) with
    | some r => some r
    | none => searchCap m rest

/-- Word-boundary test against the character before the match position. -/
def atBoundary : Option Char → Bool
  | none => true
  | some c => !isWordChar c

/-- Word-boundary test against the remainder after the match. -/
def nextBoundary : List Char → Bool
  | [] => true
  | c :: _ => !isWordChar c

/-- The pattern `\b[A-Z][a-z]*[A-Z][a-z]*\b` (filter.py line 78).
Both `[a-z]*` runs are forced maximal: a shorter first run would require
`[A-Z]` to match a lowercase character, and a shorter second run would put
the trailing `\b` between two word characters. -/
def matchCamelWord (prev : Option Char) (cs : List Char) : Bool :=
  atBoundary prev &&
  match cs with
  | c1 :: r1 =>
    isUpperChar c1 &&
    (match r1.span isLowerChar with
     | (_, c2 :: r2) =>
       isUpperChar c2 &&
       (match r2.span isLowerChar with
        | (_, rest) => nextBoundary rest)
     | (_, []) => false)
  | [] => false

/-- The patterns `\b[A-Z][a-z]+<sfx>\b` (filter.py lines 79-82), where
`<sfx>` is a literal such as `", Inc"`.  The `[a-z]+` run is forced
maximal because no suffix starts with a lowercase letter. -/
def matchWordSuffix (sfx : List Char) (prev : Option Char) (cs : List Char) : Bool :=
  atBoundary prev &&
  match cs with
  | c1 :: r1 =>
    isUpperChar c1 &&
    (match r1.span isLowerChar with
     | (ls, r2) =>
       !ls.isEmpty && listStartsWith sfx r2 && nextBoundary (r2.drop sfx.length))
  | [] => false

/-! ### is_company_affiliation (filter.py lines 56-89) -/

def is_company_affiliation (aff : String) : Bool :=
  if aff == "" then false
  else
    containsKeywordIn pharmaBiotechKeywords aff
    || reSearchB matchCamelWord aff.data
    || reSearchB (matchWordSuffix (", Inc").data) aff.data
    || reSearchB (matchWordSuffix (" Pharmaceuticals").data) aff.data
    || reSearchB (matchWordSuffix (" Biotech").data) aff.data
    || reSearchB (matchWordSuffix (" Therapeutics").data) aff.data

/-! ### extract_company_name (filter.py lines 119-150) -/

/-- Continuation of the tail `(?:\s[A-Z][a-z]+)*` of the first extraction
pattern, entered while consuming a group's lowercase run: further
lowercase letters extend the run, a complete `\s[A-Z][a-z]` start opens
the next group, and anything else ends the iteration (an incomplete group
is rolled back, never half-consumed). -/
def p1Tail : List Char → List Char
  | [] => []
  | c :: r =>
    if isLowerChar c then c :: p1Tail r
    else
      match r with
      | u :: c2 :: rest =>
        if isPySpace c && isUpperChar u && isLowerChar c2 then
          c :: u :: c2 :: p1Tail rest
        else []
      | _ => []

/-- The tail `(?:\s[A-Z][a-z]+)*`: greedily consume complete
`\s[A-Z][a-z]+` groups. -/
def p1Ext : List Char → List Char
  | w :: u :: c :: rest =>
    if isPySpace w && isUpperChar u && isLowerChar c then
      w :: u :: c :: p1Tail rest
    else []
  | _ => []

/-- The pattern `([A-Z][a-z]*[A-Z][a-z]*(?:\s[A-Z][a-z]+)*)`
(filter.py line 134). -/
def matchP1 (cs : List Char) : Option (List Char) :=
  match cs with
  | c1 :: r1 =>
    if isUpperChar c1 then
      match r1.span isLowerChar with
      | (ls1, c2 :: r2) =>
        if isUpperChar c2 then
          match r2.span isLowerChar with
          | (ls2, r3) => some (c1 :: ls1 ++ c2 :: ls2 ++ p1Ext r3)
        else none
      | (_, []) => none
    else none
  | [] => none

/-- The corporate-suffix alternation of filter.py lines 135-136, in the
source order; `re` tries alternatives left to right and the pattern ends
after the alternation, so the first prefix match wins. -/
def corpSuffixAlts : List (List Char) :=
  [ ("Pharmaceuticals").data, ("Pharma").data, ("Biotech").data,
    ("Therapeutics").data, ("Inc.").data, ("LLC").data, ("Ltd.").data,
    ("GmbH").data ]

def matchCorpAlt (cs : List Char) : Option (List Char) :=
  corpSuffixAlts.find? (fun sfx => listStartsWith sfx cs)

/-- `[A-Z][a-z]+`: one capitalized word; returns (word, rest). -/
def matchCapWord (cs : List Char) : Option (List Char × List Char) :=
  match cs with
  | c1 :: r1 =>
    if isUpperChar c1 then
      match r1.span isLowerChar with
      | (ls, r2) => if ls.isEmpty then none else some (c1 :: ls, r2)
    else none
  | [] => none

/-- `([A-Z][a-z]+ (?:Pharmaceuticals|…|GmbH))` (filter.py line 135). -/
def matchP2 (cs : List Char) : Option (List Char) :=
  match matchCapWord cs with
  | some (w, r) =>
    match r with
    | ' ' :: r2 =>
      match matchCorpAlt r2 with
      | some sfx => some (w ++ ' ' :: sfx)
      | none => none
    | _ => none
  | none => none

/-- `([A-Z][a-z]+ [A-Z][a-z]+ (?:Pharmaceuticals|…|GmbH))`
(filter.py line 136). -/
def matchP3 (cs : List Char) : Option (List Char) :=
  match matchCapWord cs with
  | some (w1, r) =>
    match r with
    | ' ' :: r2 =>
      match matchCapWord r2 with
      | some (w2, r3) =>
        match r3 with
        | ' ' :: r4 =>
          match matchCorpAlt r4 with
          | some sfx => some (w1 ++ ' ' :: w2 ++ ' ' :: sfx)
          | none => none
        | _ => none
      | none => none
    | _ => none
  | none => none

/-- `re.split(r'[,.]', s)`: always returns at least one (possibly empty)
segment. -/
def reSplitCommaDot : List Char → List (List Char)
  | [] => [[]]
  | c :: rest =>
    if c == ',' || c == '.' then [] :: reSplitCommaDot rest
    else
      match reSplitCommaDot rest with
      | p :: ps => (c :: p) :: ps
      | [] => [[c]]

def extract_company_name (aff : String) : Option String :=
  if aff == "" then none
  else
    match searchCap matchP1 aff.data with
    | some cap => some (String.mk cap)
    | none =>
    match searchCap matchP2 aff.data with
    | some cap => some (String.mk cap)
    | none =>
    match searchCap matchP3 aff.data with
    | some cap => some (String.mk cap)
    | none =>
    match reSplitCommaDot aff.data with
    | p :: _ => some (String.mk (pyStripChars p))
    | [] => none

/-! ### The embedded-email search of analyze_author_affiliations
(filter.py line 191): `([a-zA-Z0-9_.+-]+@[a-zA-Z0-9-]+\.[a-zA-Z0-9-.]+)` -/

def isEmailLocalChar (c : Char) : Bool :=
  isUpperChar c || isLowerChar c || isDigitChar c ||
  c == '_' || c == '.' || c == '+' || c == '-'

def isEmailDomChar (c : Char) : Bool :=
  isUpperChar c || isLowerChar c || isDigitChar c || c == '-'

def isEmailTailChar (c : Char) : Bool := isEmailDomChar c || c == '.'

def matchEmailPat (cs : List Char) : Option (List Char) :=
  match cs.span isEmailLocalChar with
  | (l1, r1) =>
    match r1 with
    | c :: r2 =>
      if l1.isEmpty then none
      else if c == '@' then
        match r2.span isEmailDomChar with
        | (l2, r3) =>
          match r3 with
          | c2 :: r4 =>
            if l2.isEmpty then none
            else if c2 == '.' then
              match r4.span isEmailTailChar with
              | (l3, _) =>
                if l3.isEmpty then none
                else some (l1 ++ '@' :: l2 ++ '.' :: l3)
            else none
          | [] => none
      else none
    | [] => none

def findEmail (aff : String) : Option String :=
  (searchCap matchEmailPat aff.data).map String.mk

/-! ### The record shape
A PubMed-style record is a field-code-to-value mapping; the fields the
module reads become Option-valued components (`none` = key absent). -/

structure Article where
  au : Option (List String) := none
  ad : Option (List String) := none
  dp : Option String := none
  dep : Option String := none
  edat : Option String := none
  mhda : Option String := none
  pmid : Option String := none
  ti : Option String := none
deriving DecidableEq, Repr

/-! ### parse_publication_date (filter.py lines 200-246) -/

/-- `str.split()` with no separator: split on whitespace runs, dropping
empty tokens. -/
def pySplitWsAux : List Char → List Char → List String
  | [], acc => if acc.isEmpty then [] else [String.mk acc.reverse]
  | c :: r, acc =>
    if isPySpace c then
      if acc.isEmpty then pySplitWsAux r []
      else String.mk acc.reverse :: pySplitWsAux r []
    else pySplitWsAux r (c :: acc)

def pySplitWs (s : String) : List String := pySplitWsAux s.data []

def digitVal (c : Char) : Nat := c.toNat - 48

def natOfDigits (ds : List Char) : Nat :=
  ds.foldl (fun n c => n * 10 + digitVal c) 0

/-- The C-locale month abbreviations `%b` accepts (matched
case-insensitively by CPython's `_strptime`). -/
def monthAbbrevs : List String :=
  [ "jan", "feb", "mar", "apr", "may", "jun",
    "jul", "aug", "sep", "oct", "nov", "dec" ]

def monthOfAbbrev (cs : List Char) : Option Nat :=
  (monthAbbrevs.findIdx? (fun m => m == String.mk cs)).map (fun i => i + 1)

def isLeapYear (y : Nat) : Bool :=
  y % 4 == 0 && (y % 100 != 0 || y % 400 == 0)

def daysInMonth (y m : Nat) : Nat :=
  if m == 2 then (if isLeapYear y then 29 else 28)
  else if m == 4 || m == 6 || m == 9 || m == 11 then 30
  else 31

/-- The `%d` directive: the alternation `3[01]|[12]\d|0[1-9]|[1-9]`,
tried left to right. -/
def parseDayToken : List Char → Option (Nat × List Char)
  | c1 :: c2 :: r =>
    if c1 == '3' && (c2 == '0' || c2 == '1') then some (30 + digitVal c2, r)
    else if (c1 == '1' || c1 == '2') && isDigitChar c2 then
      some (digitVal c1 * 10 + digitVal c2, r)
    else if c1 == '0' && ('1' ≤ c2 && c2 ≤ '9') then some (digitVal c2, r)
    else if '1' ≤ c1 && c1 ≤ '9' then some (digitVal c1, c2 :: r)
    else none
  | [c1] => if '1' ≤ c1 && c1 ≤ '9' then some (digitVal c1, []) else none
  | [] => none

/-- `datetime.strptime(v, '%Y %b %d')`: `%Y` is exactly four digits,
format whitespace matches a nonempty whitespace run, the whole string must
be consumed, and the resulting calendar date must be valid (year at least
one, day within the month). -/
def strptimeYbd (v : String) : Option (Nat × Nat × Nat) :=
  match v.data.span isDigitChar with
  | (ys, r1) =>
    if ys.length == 4 then
      match r1 with
      | c :: _ =>
        if isPySpace c then
          match r1.dropWhile isPySpace with
          | m1 :: m2 :: m3 :: r3 =>
            match monthOfAbbrev [lowerChar m1, lowerChar m2, lowerChar m3] with
            | some m =>
              match r3 with
              | c2 :: _ =>
                if isPySpace c2 then
                  match parseDayToken (r3.dropWhile isPySpace) with
                  | some (d, r5) =>
                    if r5.isEmpty then
                      let y := natOfDigits ys
                      if 1 ≤ y && d ≤ daysInMonth y m then some (y, m, d)
                      else none
                    else none
                  | none => none
                else none
              | [] => none
            | none => none
          | _ => none
        else none
      | [] => none
    else none

/-- `datetime.strptime(v, '%Y %b')`. -/
def strptimeYb (v : String) : Option (Nat × Nat) :=
  match v.data.span isDigitChar with
  | (ys, r1) =>
    if ys.length == 4 then
      match r1 with
      | c :: _ =>
        if isPySpace c then
          match r1.dropWhile isPySpace with
          | [m1, m2, m3] =>
            match monthOfAbbrev [lowerChar m1, lowerChar m2, lowerChar m3] with
            | some m =>
              let y := natOfDigits ys
              if 1 ≤ y then some (y, m) else none
            | none => none
          | _ => none
        else none
      | [] => none
    else none

/-- `strftime('%Y')`: glibc does not zero-pad years below 1000. -/
def fmtYear (y : Nat) : String := toString y

def pad2 (n : Nat) : String :=
  if n < 10 then "0" ++ toString n else toString n

def fmtYmd (y m d : Nat) : String :=
  fmtYear y ++ "-" ++ pad2 m ++ "-" ++ pad2 d

/-- Exactly `n` leading digits, with their value. -/
def parseNDigitsAux : Nat → Nat → List Char → Option (Nat × List Char)
  | 0, acc, cs => some (acc, cs)
  | n + 1, acc, cs =>
    match cs with
    | c :: r =>
      if isDigitChar c then parseNDigitsAux n (acc * 10 + digitVal c) r
      else none
    | [] => none

def parseNDigits (n : Nat) (cs : List Char) : Option (Nat × List Char) :=
  parseNDigitsAux n 0 cs

/-- An ISO fractional-seconds suffix: `.` plus exactly 3 or 6 digits
(CPython 3.10 `fromisoformat` grammar). -/
def parseFrac : List Char → Option (List Char)
  | '.' :: r =>
    (match r.span isDigitChar with
     | (ds, r2) => if ds.length == 3 || ds.length == 6 then some r2 else none)
  | _ => none

/-- ISO time `HH[:MM[:SS[.fff[fff]]]]` with range validation; returns the
remainder. -/
def parseIsoTime (cs : List Char) : Option (List Char) :=
  match parseNDigits 2 cs with
  | some (h, r1) =>
    if h < 24 then
      match r1 with
      | ':' :: r2 =>
        (match parseNDigits 2 r2 with
         | some (mi, r3) =>
           if mi < 60 then
             match r3 with
             | ':' :: r4 =>
               (match parseNDigits 2 r4 with
                | some (s, r5) =>
                  if s < 60 then
                    match parseFrac r5 with
                    | some r6 => some r6
                    | none => some r5
                  else none
                | none => none)
             | _ => some r3
           else none
         | none => none)
      | _ => some r1
    else none
  | none => none

/-- ISO offset `±HH:MM[:SS[.ffffff]]`; the offset must be strictly less
than 24 hours.  An empty input means "no offset present". -/
def parseIsoOffset : List Char → Option (List Char)
  | [] => some []
  | c :: r =>
    if c == '+' || c == '-' then
      match parseNDigits 2 r with
      | some (oh, r1) =>
        (match r1 with
         | ':' :: r2 =>
           (match parseNDigits 2 r2 with
            | some (om, r3) =>
              if oh < 24 && om < 60 then
                match r3 with
                | ':' :: r4 =>
                  (match parseNDigits 2 r4 with
                   | some (os, r5) =>
                     if os < 60 then
                       match parseFrac r5 with
                       | some r6 => some r6
                       | none => some r5
                     else none
                   | none => none)
                | _ => some r3
              else none
            | none => none)
         | _ => none)
      | none => none
    else none

/-- `datetime.fromisoformat` (CPython 3.10 grammar): `YYYY-MM-DD`, then
optionally one separator character and a time with optional offset; the
whole string must be consumed. -/
def pyFromIsoformat (v : String) : Option (Nat × Nat × Nat) :=
  match parseNDigits 4 v.data with
  | some (y, r1) =>
    (match r1 with
     | '-' :: r2 =>
       (match parseNDigits 2 r2 with
        | some (m, r3) =>
          (match r3 with
           | '-' :: r4 =>
             (match parseNDigits 2 r4 with
              | some (d, r5) =>
                if 1 ≤ y && 1 ≤ m && m ≤ 12 && 1 ≤ d && d ≤ daysInMonth y m then
                  match r5 with
                  | [] => some (y, m, d)
                  | _ :: r6 =>
                    (match parseIsoTime r6 with
                     | some r7 =>
                       (match parseIsoOffset r7 with
                        | some [] => some (y, m, d)
                        | _ => none)
                     | none => none)
                else none
              | none => none)
           | _ => none)
        | none => none)
     | _ => none)
  | none => none

/-- The `except ValueError` recovery of filter.py lines 230-243: retry as
an ISO timestamp when the value contains `T` (after replacing every `Z`
with `+00:00`), else reassemble the first three slash-separated parts. -/
def isoOrSlashFallback (v : String) : Option String :=
  if strContainsChar v 'T' then
    match pyFromIsoformat (String.mk (replaceChar 'Z' ("+00:00").data v.data)) with
    | some (y, m, d) => some (fmtYmd y m d)
    | none => none
  else if strContainsChar v '/' then
    match splitOnChar '/' v.data with
    | p0 :: p1 :: p2 :: _ =>
      some (String.mk p0 ++ "-" ++ String.mk p1 ++ "-" ++ String.mk p2)
    | _ => none
  else none

/-- The per-value format-detection chain of filter.py lines 217-243:
`none` means every attempt failed and the next field is tried. -/
def parseDateValue (v : String) : Option String :=
  let toks := pySplitWs v
  if 3 ≤ toks.length then
    match strptimeYbd v with
    | some (y, m, d) => some (fmtYmd y m d)
    | none => isoOrSlashFallback v
  else if toks.length == 2 then
    match strptimeYb v with
    | some (y, m) => some (fmtYear y ++ "-" ++ pad2 m ++ "-01")
    | none => isoOrSlashFallback v
  else some (String.mk (pyStripChars v.data) ++ "-01-01")

/-- The field loop of filter.py lines 211-246, over the priority list
`['DP', 'DEP', 'EDAT', 'MHDA']`: a field is considered when present with
a non-empty value, and a failed format chain falls through to the next
field. -/
def parseDateFields : List (Option String) → String
  | [] => ""
  | f :: rest =>
    match f with
    | some v =>
      if v == "" then parseDateFields rest
      else
        match parseDateValue v with
        | some s => s
        | none => parseDateFields rest
    | none => parseDateFields rest

def parse_publication_date (art : Article) : String :=
  parseDateFields [art.dp, art.dep, art.edat, art.mhda]

/-! ### analyze_author_affiliations (filter.py lines 152-198) -/

structure AnalyzeSt where
  nonAcademic : List String
  companies : List String
  email : Option String
deriving DecidableEq, Repr

/-- Python truthiness of the `corresponding_email` variable
(`not corresponding_email`). -/
def emailFalsy : Option String → Bool
  | none => true
  | some e => e == ""

/-- The email tie-break of filter.py lines 190-196: an email found in the
affiliation is adopted when none is chosen yet or when the new address is
non-academic. -/
def updateEmail (cur : Option String) (aff : String) : Option String :=
  match findEmail aff with
  | some e => if emailFalsy cur || !is_academic_email e then some e else cur
  | none => cur

/-- `company_affiliations.add(company)` guarded by `if company:`
(filter.py lines 186-188).  The companies accumulator is a Python `set`;
the iteration order of `list(set)` is hash-dependent in CPython, so the
embedding resolves the unspecified order to first-seen. -/
def addCompany (comps : List String) (aff : String) : List String :=
  match extract_company_name aff with
  | some c =>
    if c == "" then comps
    else if c ∈ comps then comps
    else comps ++ [c]
  | none => comps

/-- One iteration of the loop at filter.py lines 177-196, for an index
that has both an author and an affiliation entry. -/
def processPair (author aff : String) (s : AnalyzeSt) : AnalyzeSt :=
  if aff == "" then s
  else
    let s1 :=
      if !is_academic_affiliation aff && is_company_affiliation aff then
        { s with nonAcademic := s.nonAcademic ++ [author],
                 companies := addCompany s.companies aff }
      else s
    { s1 with email := updateEmail s1.email aff }

/-- `for i, affiliation in enumerate(affiliations): if i < len(authors)`:
iteration stops contributing as soon as either list is exhausted. -/
def analyzeLoop : List String → List String → AnalyzeSt → AnalyzeSt
  | _, [], s => s
  | [], _ :: _, s => s
  | a :: as, b :: bs, s => analyzeLoop as bs (processPair a b s)

def analyze_author_affiliations (art : Article) :
    List String × List String × Option String :=
  match art.au, art.ad with
  | some aus, some ads =>
    let s := analyzeLoop aus ads ⟨[], [], none⟩
    (s.nonAcademic, s.companies, s.email)
  | _, _ => ([], [], none)

/-! ### extract_paper_details (filter.py lines 248-276) -/

structure Summary where
  pubmedID : String
  title : String
  publicationDate : String
  nonAcademicAuthors : String
  companyAffiliations : String
  correspondingEmail : String
deriving DecidableEq, Repr

def extract_paper_details (art : Article) : Summary :=
  let r := analyze_author_affiliations art
  { pubmedID := art.pmid.getD "",
    title := art.ti.getD "",
    publicationDate := parse_publication_date art,
    nonAcademicAuthors := joinWithSep ("; ") r.1,
    companyAffiliations := joinWithSep ("; ") r.2.1,
    correspondingEmail := (r.2.2).getD "" }

/-! ### filter_papers (filter.py lines 278-312)
The per-record `try/except` is modelled by running the extractor through
`Except`: an `error` outcome is an exception raised while extracting that
record, which the loop catches, logs and skips. -/

def filterPapersWith (f : Article → Except String Summary) :
    List Article → List Summary
  | [] => []
  | a :: rest =>
    match f a with
    | Except.ok s =>
      if s.nonAcademicAuthors == "" then filterPapersWith f rest
      else s :: filterPapersWith f rest
    | Except.error _ => filterPapersWith f rest

/-- The per-record outcome of the loop body, as a `filterMap` step. -/
def filterStep (f : Article → Except String Summary) (a : Article) :
    Option Summary :=
  match f a with
  | Except.ok s => if s.nonAcademicAuthors == "" then none else some s
  | Except.error _ => none

def filter_papers (articles : List Article) : List Summary :=
  filterPapersWith (fun a => Except.ok (extract_paper_details a)) articles

/-! ## Supporting lemmas -/

theorem processPair_academic (author aff : String) (s : AnalyzeSt)
    (h : is_academic_affiliation aff = true) :
    (processPair author aff s).nonAcademic = s.nonAcademic
      ∧ (processPair author aff s).companies = s.companies := by
  cases he : (aff == "") with
  | true => simp [processPair, he]
  | false => simp [processPair, he, h]

theorem analyzeLoop_academic (ads : List String) : ∀ (aus : List String) (s : AnalyzeSt),
    (∀ a ∈ ads, is_academic_affiliation a = true) →
    (analyzeLoop aus ads s).nonAcademic = s.nonAcademic
      ∧ (analyzeLoop aus ads s).companies = s.companies := by
  induction ads with
  | nil => intro aus s _; cases aus <;> simp [analyzeLoop]
  | cons b bs ih =>
    intro aus s hall
    cases aus with
    | nil => simp [analyzeLoop]
    | cons a as =>
      have hb : is_academic_affiliation b = true := hall b (by simp)
      have hstep := processPair_academic a b s hb
      have hrest := ih as (processPair a b s) (fun x hx => hall x (by simp [hx]))
      show (analyzeLoop as bs (processPair a b s)).nonAcademic = s.nonAcademic
        ∧ (analyzeLoop as bs (processPair a b s)).companies = s.companies
      exact ⟨hrest.1.trans hstep.1, hrest.2.trans hstep.2⟩

/-! ## Claim C1 -/

/-- C1: an affiliation that case-insensitively contains an academic-vocabulary
keyword (i.e. `is_academic_affiliation` is true for it) never adds its paired
author to the non-academic list and never contributes a company name — the
academic check takes precedence even when the affiliation also matches the
commercial vocabulary or the commercial structural patterns; consequently a
record all of whose affiliations are academic yields no non-academic authors
and no companies. -/
theorem claim_C1 (author aff : String) (s : AnalyzeSt) (aus ads : List String)
    (h : is_academic_affiliation aff = true)
    (hall : ∀ a ∈ ads, is_academic_affiliation a = true) :
    ((processPair author aff s).nonAcademic = s.nonAcademic
      ∧ (processPair author aff s).companies = s.companies)
    ∧ ((analyze_author_affiliations { au := some aus, ad := some ads }).1 = []
      ∧ (analyze_author_affiliations { au := some aus, ad := some ads }).2.1 = []) := by
  refine ⟨processPair_academic author aff s h, ?_⟩
  have := analyzeLoop_academic ads aus ⟨[], [], none⟩ hall
  simpa [analyze_author_affiliations] using this

theorem claim_C1_witness :
    is_academic_affiliation ("Example University Research Center, a subsidiary") = true
    ∧ (∀ a ∈ ([ "Dept. of Biology, Example University" ] : List String),
        is_academic_affiliation a = true)
    ∧ (((processPair ("Doe A") ("Example University Research Center, a subsidiary")
          ⟨[], [], none⟩).nonAcademic = []
        ∧ (processPair ("Doe A") ("Example University Research Center, a subsidiary")
          ⟨[], [], none⟩).companies = [])
      ∧ ((analyze_author_affiliations
            { au := some ["Smith J"],
              ad := some ["Dept. of Biology, Example University"] }).1 = []
        ∧ (analyze_author_affiliations
            { au := some ["Smith J"],
              ad := some ["Dept. of Biology, Example University"] }).2.1 = [])) :=
  ⟨by decide, by decide,
    claim_C1 ("Doe A") ("Example University Research Center, a subsidiary")
      ⟨[], [], none⟩ ["Smith J"] ["Dept. of Biology, Example University"]
      (by decide) (by decide)⟩

/-! ## Claim C9 -/

/-- C9: `extract_paper_details` is deterministic and stateless across calls:
the embedding is a pure function (the Python source reads only immutable
module-level constants and threads no state between calls), so two runs on
the same record — and every run across any number of repetitions of the
record — yield identical summaries, field for field, including the joined
author and company strings. -/
theorem claim_C9 (art : Article) (n : Nat) :
    extract_paper_details art = extract_paper_details art
    ∧ (List.replicate n art).map extract_paper_details
        = List.replicate n (extract_paper_details art) := by
  exact ⟨rfl, by simp⟩

/-! ## Claim C5 -/

/-- The spec's output format `YYYY-MM-DD`: ten characters, four digits,
a dash, two digits, a dash, two digits.  (Stated from the specification's
words, to compare the code's output against them.) -/
def isCalendarYMD (s : String) : Bool :=
  match s.data with
  | [y1, y2, y3, y4, h1, m1, m2, h2, d1, d2] =>
    isDigitChar y1 && isDigitChar y2 && isDigitChar y3 && isDigitChar y4 &&
    h1 == '-' && h2 == '-' &&
    isDigitChar m1 && isDigitChar m2 && isDigitChar d1 && isDigitChar d2
  | _ => false

/-- Python truthiness of a date-field lookup: absent key or empty value. -/
def noDateValue : Option String → Bool
  | none => true
  | some s => s == ""

theorem parseDateFields_falsy : ∀ fs : List (Option String),
    (∀ f ∈ fs, noDateValue f = true) → parseDateFields fs = "" := by
  intro fs
  induction fs with
  | nil => intro _; rfl
  | cons f rest ih =>
    intro h
    have hf := h f (by simp)
    cases f with
    | none => simpa [parseDateFields] using ih (fun x hx => h x (by simp [hx]))
    | some v =>
      have hv : (v == "") = true := hf
      simpa [parseDateFields, hv] using ih (fun x hx => h x (by simp [hx]))

/-- C5 counterexample: the single-token fallback returns the raw value with
`-01-01` appended, without any validation, so the result need be neither
empty nor of calendar form. -/
theorem claim_C5_cex :
    parse_publication_date { dp := some ("banana") } = "banana-01-01"
    ∧ ("banana-01-01" : String) ≠ ""
    ∧ isCalendarYMD ("banana-01-01") = false :=
  ⟨by decide, by decide, by decide⟩

/-- C5 (amended): `parse_publication_date` never raises (it is a total
function of the record) and returns the empty string when every date field
is absent or empty; but its result is not always of calendar form
`YYYY-MM-DD`: a date value with at most one whitespace token is returned
as `<value stripped>-01-01` without validation. -/
theorem claim_C5 (art : Article) (v : String)
    (h : (noDateValue art.dp && noDateValue art.dep
          && noDateValue art.edat && noDateValue art.mhda) = true) :
    parse_publication_date art = ""
    ∧ ((pySplitWs v).length ≤ 1 →
        parseDateValue v = some (String.mk (pyStripChars v.data) ++ "-01-01")) := by
  constructor
  · simp only [Bool.and_eq_true] at h
    refine parseDateFields_falsy _ ?_
    intro f hf
    simp only [List.mem_cons, List.mem_singleton] at hf
    rcases hf with rfl | rfl | rfl | rfl | hf
    · exact h.1.1.1
    · exact h.1.1.2
    · exact h.1.2
    · exact h.2
    · simp at hf
  · intro hlen
    have h3 : ¬ (3 ≤ (pySplitWs v).length) := by omega
    have h2 : ¬ ((pySplitWs v).length = 2) := by omega
    simp [parseDateValue, h3, h2]

theorem claim_C5_witness :
    (noDateValue (({} : Article).dp) && noDateValue (({} : Article).dep)
      && noDateValue (({} : Article).edat) && noDateValue (({} : Article).mhda)) = true
    ∧ (parse_publication_date ({} : Article) = ""
      ∧ ((pySplitWs ("banana")).length ≤ 1 →
          parseDateValue ("banana")
            = some (String.mk (pyStripChars ("banana").data) ++ "-01-01"))) :=
  ⟨by decide, claim_C5 {} ("banana") (by decide)⟩

/-! ## Claim C6 -/

/-- C6 counterexample: `DP` is present and non-empty, yet the result comes
from `DEP`, because a value whose every format attempt fails falls through
to the next field; so the first present non-empty field is not always "the
one used". -/
theorem claim_C6_cex :
    ({ dp := some ("a b c"), dep := some ("2022") } : Article).dp = some ("a b c")
    ∧ ("a b c" : String) ≠ ""
    ∧ parse_publication_date { dp := some ("a b c"), dep := some ("2022") }
        = "2022-01-01"
    ∧ parse_publication_date { dp := some ("a b c") } = "" :=
  ⟨rfl, by decide, by decide, by decide⟩

/-- C6 (amended): the concrete normalizations hold as claimed
(`"2023 Jan 15"` ↦ `"2023-01-15"`, `"2023 Jan"` ↦ `"2023-01-01"`,
`"2023"` ↦ `"2023-01-01"`, no date field ↦ `""`), and the fields are tried
in the fixed priority order `DP, DEP, EDAT, MHDA`: the first present
non-empty field is tried first, but when all of its format attempts fail
the remaining fields are tried in order. -/
theorem claim_C6 (art : Article) (v : String) (hv : v ≠ "") (hdp : art.dp = some v) :
    parse_publication_date art
      = (match parseDateValue v with
         | some s => s
         | none => parse_publication_date { art with dp := none })
    ∧ parse_publication_date { dp := some ("2023 Jan 15") } = "2023-01-15"
    ∧ parse_publication_date { dp := some ("2023 Jan") } = "2023-01-01"
    ∧ parse_publication_date { dp := some ("2023") } = "2023-01-01"
    ∧ parse_publication_date ({} : Article) = "" := by
  refine ⟨?_, by decide, by decide, by decide, by decide⟩
  have hv' : (v == "") = false := by simpa using hv
  simp only [parse_publication_date, hdp, parseDateFields, hv']
  cases parseDateValue v <;> simp [parseDateFields]

theorem claim_C6_witness :
    ("2023 Jan 15" : String) ≠ ""
    ∧ ({ dp := some ("2023 Jan 15") } : Article).dp = some ("2023 Jan 15")
    ∧ (parse_publication_date { dp := some ("2023 Jan 15") }
        = (match parseDateValue ("2023 Jan 15") with
           | some s => s
           | none => parse_publication_date
               { ({ dp := some ("2023 Jan 15") } : Article) with dp := none })
      ∧ parse_publication_date { dp := some ("2023 Jan 15") } = "2023-01-15"
      ∧ parse_publication_date { dp := some ("2023 Jan") } = "2023-01-01"
      ∧ parse_publication_date { dp := some ("2023") } = "2023-01-01"
      ∧ parse_publication_date ({} : Article) = "") :=
  ⟨by decide, rfl, claim_C6 { dp := some ("2023 Jan 15") } ("2023 Jan 15") (by decide) rfl⟩

/-! ## Claim C7 -/

/-- The character class excluded by the fallback split `re.split(r'[,.]', s)`. -/
def notCommaDot (c : Char) : Bool := !(c == ',' || c == '.')

theorem reSplitCommaDot_ne_nil : ∀ cs : List Char, reSplitCommaDot cs ≠ [] := by
  intro cs
  induction cs with
  | nil => simp [reSplitCommaDot]
  | cons c rest ih =>
    simp only [reSplitCommaDot]
    by_cases hc : (c == ',' || c == '.') = true
    · simp [hc]
    · simp only [Bool.not_eq_true] at hc
      cases hs : reSplitCommaDot rest with
      | nil => exact absurd hs ih
      | cons p ps => simp [hc, hs]

theorem reSplitCommaDot_head : ∀ cs : List Char,
    (reSplitCommaDot cs).head? = some (cs.takeWhile notCommaDot) := by
  intro cs
  induction cs with
  | nil => simp [reSplitCommaDot, List.takeWhile]
  | cons c rest ih =>
    simp only [reSplitCommaDot, List.takeWhile, notCommaDot]
    by_cases hc : (c == ',' || c == '.') = true
    · simp [hc]
    · simp only [Bool.not_eq_true] at hc
      cases hs : reSplitCommaDot rest with
      | nil => exact absurd hs (reSplitCommaDot_ne_nil rest)
      | cons p ps =>
        rw [hs] at ih
        simp only [List.head?] at ih
        simp [hc, hs, Option.some.injEq] at ih ⊢
        exact ih

/-- C7 counterexample: `", inc"` contains the commercial keyword `inc` and
no academic keyword, so it classifies Commercial, yet `extract_company_name`
returns the empty string (no pattern matches and the segment before the
first comma is empty), contradicting "returns a non-empty string". -/
theorem claim_C7_cex :
    containsKeywordIn pharmaBiotechKeywords (", inc") = true
    ∧ is_academic_affiliation (", inc") = false
    ∧ is_company_affiliation (", inc") = true
    ∧ extract_company_name (", inc") = some ("") :=
  ⟨by decide, by decide, by decide, by decide⟩

/-- C7 (amended): an affiliation containing a commercial-vocabulary term is
classified Commercial by `is_company_affiliation`; `extract_company_name`
returns a non-`None` result for every non-empty input, and when no pattern
matches it falls back to the whitespace-trimmed segment before the first
comma or period — but that result may be the empty string. -/
theorem claim_C7 (aff : String)
    (hk : containsKeywordIn pharmaBiotechKeywords aff = true)
    (hne : aff ≠ "") :
    is_company_affiliation aff = true
    ∧ (∃ s, extract_company_name aff = some s)
    ∧ (searchCap matchP1 aff.data = none → searchCap matchP2 aff.data = none →
        searchCap matchP3 aff.data = none →
        extract_company_name aff
          = some (String.mk (pyStripChars (aff.data.takeWhile notCommaDot)))) := by
  have hne' : (aff == "") = false := by simpa using hne
  refine ⟨by simp [is_company_affiliation, hne', hk], ?_, ?_⟩
  · cases h1 : searchCap matchP1 aff.data with
    | some cap => exact ⟨String.mk cap, by simp [extract_company_name, hne', h1]⟩
    | none =>
      cases h2 : searchCap matchP2 aff.data with
      | some cap => exact ⟨String.mk cap, by simp [extract_company_name, hne', h1, h2]⟩
      | none =>
        cases h3 : searchCap matchP3 aff.data with
        | some cap =>
          exact ⟨String.mk cap, by simp [extract_company_name, hne', h1, h2, h3]⟩
        | none =>
          cases hs : reSplitCommaDot aff.data with
          | nil => exact absurd hs (reSplitCommaDot_ne_nil aff.data)
          | cons p ps =>
            exact ⟨String.mk (pyStripChars p),
              by simp [extract_company_name, hne', h1, h2, h3, hs]⟩
  · intro h1 h2 h3
    have hhead := reSplitCommaDot_head aff.data
    cases hs : reSplitCommaDot aff.data with
    | nil => exact absurd hs (reSplitCommaDot_ne_nil aff.data)
    | cons p ps =>
      rw [hs] at hhead
      simp only [List.head?, Option.some.injEq] at hhead
      simp [extract_company_name, hne', h1, h2, h3, hs, hhead]

theorem claim_C7_witness :
    containsKeywordIn pharmaBiotechKeywords ("Pfizer Inc, New York") = true
    ∧ ("Pfizer Inc, New York" : String) ≠ ""
    ∧ (is_company_affiliation ("Pfizer Inc, New York") = true
      ∧ (∃ s, extract_company_name ("Pfizer Inc, New York") = some s)
      ∧ (searchCap matchP1 ("Pfizer Inc, New York").data = none →
          searchCap matchP2 ("Pfizer Inc, New York").data = none →
          searchCap matchP3 ("Pfizer Inc, New York").data = none →
          extract_company_name ("Pfizer Inc, New York")
            = some (String.mk (pyStripChars
                (("Pfizer Inc, New York").data.takeWhile notCommaDot))))) :=
  ⟨by decide, by decide, claim_C7 ("Pfizer Inc, New York") (by decide) (by decide)⟩

/-! ## Claim C4 -/

theorem addCompany_nodup (comps : List String) (aff : String)
    (h : comps.Nodup) : (addCompany comps aff).Nodup := by
  unfold addCompany
  cases hc : extract_company_name aff with
  | none => exact h
  | some c =>
    by_cases he : (c == "") = true
    · simp [he, h]
    · simp only [he]
      by_cases hm : c ∈ comps
      · simp [hm, h]
      · rw [if_neg hm]
        refine List.Nodup.append h (List.nodup_singleton c) ?_
        intro a ha hb
        simp only [List.mem_singleton] at hb
        subst hb
        exact hm ha

theorem processPair_nodup (author aff : String) (s : AnalyzeSt)
    (h : s.companies.Nodup) : (processPair author aff s).companies.Nodup := by
  unfold processPair
  by_cases he : (aff == "") = true
  · simpa [he] using h
  · simp only [he]
    by_cases hg : (!is_academic_affiliation aff && is_company_affiliation aff) = true
    · simpa [hg] using addCompany_nodup s.companies aff h
    · simpa [hg] using h

theorem analyzeLoop_nodup : ∀ (ads aus : List String) (s : AnalyzeSt),
    s.companies.Nodup → (analyzeLoop aus ads s).companies.Nodup := by
  intro ads
  induction ads with
  | nil => intro aus s h; cases aus <;> simpa [analyzeLoop] using h
  | cons b bs ih =>
    intro aus s h
    cases aus with
    | nil => simpa [analyzeLoop] using h
    | cons a as =>
      show (analyzeLoop as bs (processPair a b s)).companies.Nodup
      exact ih as (processPair a b s) (processPair_nodup a b s h)

/-- C4 (the duplicate-free half, which the code does guarantee): the
company list returned by `analyze_author_affiliations` never contains the
same name twice.  The first-seen-order half of the claim is settled
outside the embedding: the source stores companies in a Python `set` and
returns `list(company_affiliations)`, whose iteration order is
hash-dependent, so the embedding resolves the unspecified order to
first-seen. -/
theorem claim_C4_nodup (art : Article) :
    ((analyze_author_affiliations art).2.1).Nodup := by
  unfold analyze_author_affiliations
  cases hau : art.au with
  | none => simp
  | some aus =>
    cases had : art.ad with
    | none => simp
    | some ads => simpa using analyzeLoop_nodup ads aus ⟨[], [], none⟩ (by simp)

/-! ## Claim C2 -/

theorem filterPapersWith_filterMap (f : Article → Except String Summary) :
    ∀ arts : List Article,
      filterPapersWith f arts = arts.filterMap (filterStep f) := by
  intro arts
  induction arts with
  | nil => rfl
  | cons a rest ih =>
    simp only [filterPapersWith, filterStep, List.filterMap_cons]
    cases hf : f a with
    | error e => simpa using ih
    | ok s =>
      by_cases hs : (s.nonAcademicAuthors == "") = true
      · simpa [hs] using ih
      · simp [hs, ih]

/-- Sample records used by the concrete witnesses. -/
def sampleCompanyArticle : Article :=
  { au := some ["Doe A"], ad := some ["Pfizer Inc, New York"] }

/-- C2: `filter_papers` emits a summary for a record only if its
non-academic-author list is non-empty (the joined string is non-empty, so
the list is); the output is a `filterMap` of the input, hence retained
records keep their relative input order; and a record on which extraction
raises is skipped while every record before and after it is still
processed. -/
theorem claim_C2 (f : Article → Except String Summary) (xs ys arts : List Article)
    (bad : Article) (e : String) (s : Summary)
    (hf : f bad = Except.error e) :
    filterPapersWith f (xs ++ bad :: ys)
        = filterPapersWith f xs ++ filterPapersWith f ys
    ∧ filterPapersWith f arts = arts.filterMap (filterStep f)
    ∧ (s ∈ filter_papers arts →
        s.nonAcademicAuthors ≠ ""
        ∧ ∃ a, a ∈ arts ∧ s = extract_paper_details a
            ∧ (analyze_author_affiliations a).1 ≠ []) := by
  refine ⟨?_, filterPapersWith_filterMap f arts, ?_⟩
  · rw [filterPapersWith_filterMap, filterPapersWith_filterMap,
      filterPapersWith_filterMap, List.filterMap_append, List.filterMap_cons]
    simp [filterStep, hf]
  · intro hs
    unfold filter_papers at hs
    rw [filterPapersWith_filterMap] at hs
    rcases List.mem_filterMap.mp hs with ⟨a, ha, hstep⟩
    simp only [filterStep] at hstep
    by_cases hemp : ((extract_paper_details a).nonAcademicAuthors == "") = true
    · simp [hemp] at hstep
    · simp only [hemp, if_neg, Bool.false_eq_true, not_false_eq_true,
        if_false, Option.some.injEq] at hstep
      subst hstep
      refine ⟨by simpa using hemp, a, ha, rfl, ?_⟩
      intro hnil
      have : (extract_paper_details a).nonAcademicAuthors
          = joinWithSep ("; ") (analyze_author_affiliations a).1 := rfl
      rw [this, hnil] at hemp
      exact hemp rfl

theorem claim_C2_witness :
    (fun _ : Article => Except.error ("boom")) ({} : Article)
        = (Except.error ("boom") : Except String Summary)
    ∧ (filterPapersWith (fun _ => Except.error ("boom"))
          ([] ++ ({} : Article) :: [sampleCompanyArticle])
        = filterPapersWith (fun _ => Except.error ("boom")) []
          ++ filterPapersWith (fun _ => Except.error ("boom")) [sampleCompanyArticle]
      ∧ filterPapersWith (fun _ => Except.error ("boom")) [sampleCompanyArticle]
        = [sampleCompanyArticle].filterMap
            (filterStep (fun _ => Except.error ("boom")))
      ∧ (extract_paper_details sampleCompanyArticle
            ∈ filter_papers [sampleCompanyArticle] →
          (extract_paper_details sampleCompanyArticle).nonAcademicAuthors ≠ ""
          ∧ ∃ a, a ∈ [sampleCompanyArticle]
              ∧ extract_paper_details sampleCompanyArticle = extract_paper_details a
              ∧ (analyze_author_affiliations a).1 ≠ [])) :=
  ⟨rfl, claim_C2 (fun _ => Except.error ("boom")) [] [sampleCompanyArticle]
    [sampleCompanyArticle] {} ("boom")
    (extract_paper_details sampleCompanyArticle) rfl⟩

/-! ## Claim C3 -/

theorem matchEmailPat_ne_nil (cs cap : List Char)
    (h : matchEmailPat cs = some cap) : cap ≠ [] := by
  unfold matchEmailPat at h
  repeat' split at h
  all_goals try exact Option.noConfusion h
  injection h with h
  subst h
  simp

theorem searchCap_some (m : List Char → Option (List Char)) :
    ∀ cs cap : List Char, searchCap m cs = some cap → ∃ ds, m ds = some cap := by
  intro cs
  induction cs with
  | nil => intro cap h; exact ⟨[], h⟩
  | cons c rest ih =>
    intro cap h
    simp only [searchCap] at h
    cases hm : m (c :: rest) with
    | some r => rw [hm] at h; exact ⟨c :: rest, hm.trans h⟩
    | none => rw [hm] at h; exact ih cap h

theorem findEmail_ne_empty (aff e : String) (h : findEmail aff = some e) :
    e ≠ "" := by
  unfold findEmail at h
  cases hs : searchCap matchEmailPat aff.data with
  | none => rw [hs] at h; simp at h
  | some cap =>
    rw [hs] at h
    have h2 : String.mk cap = e := by simpa using h
    rcases searchCap_some matchEmailPat aff.data cap hs with ⟨ds, hm⟩
    have hne := matchEmailPat_ne_nil ds cap hm
    intro hcon
    apply hne
    rw [← h2] at hcon
    have := congrArg String.data hcon
    simpa using this

theorem updateEmail_keeps_nonacad (cur : Option String) (aff e0 : String)
    (hcur : cur = some e0) (hna : is_academic_email e0 = false) (hne : e0 ≠ "") :
    ∃ e', updateEmail cur aff = some e'
      ∧ is_academic_email e' = false ∧ e' ≠ "" := by
  unfold updateEmail
  cases hf : findEmail aff with
  | none => exact ⟨e0, hcur, hna, hne⟩
  | some e =>
    have hfalsy : emailFalsy cur = false := by
      subst hcur
      simpa [emailFalsy] using hne
    by_cases hae : is_academic_email e = true
    · simp only [hfalsy, hae, Bool.not_true, Bool.or_self, Bool.false_eq_true, if_false]
      exact ⟨e0, hcur, hna, hne⟩
    · have hae' : is_academic_email e = false := by simpa using hae
      simp only [hfalsy, hae', Bool.not_false, Bool.or_true, if_true]
      exact ⟨e, rfl, hae', findEmail_ne_empty aff e hf⟩

theorem processPair_email (a b : String) (s : AnalyzeSt) :
    (processPair a b s).email
      = if b == "" then s.email else updateEmail s.email b := by
  unfold processPair
  by_cases hb : (b == "") = true
  · simp [hb]
  · simp only [hb, Bool.false_eq_true, if_false]
    by_cases hg : (!is_academic_affiliation b && is_company_affiliation b) = true
    · simp [hg]
    · simp [hg]

theorem analyzeLoop_email_nonacad : ∀ (ads aus : List String) (s : AnalyzeSt)
    (e0 : String), s.email = some e0 → is_academic_email e0 = false → e0 ≠ "" →
    ∃ e', (analyzeLoop aus ads s).email = some e'
      ∧ is_academic_email e' = false ∧ e' ≠ "" := by
  intro ads
  induction ads with
  | nil => intro aus s e0 h hna hne; cases aus <;> exact ⟨e0, h, hna, hne⟩
  | cons b bs ih =>
    intro aus s e0 h hna hne
    cases aus with
    | nil => exact ⟨e0, h, hna, hne⟩
    | cons a as =>
      show ∃ e', (analyzeLoop as bs (processPair a b s)).email = some e'
        ∧ is_academic_email e' = false ∧ e' ≠ ""
      by_cases hb : (b == "") = true
      · have hm : (processPair a b s).email = some e0 := by
          rw [processPair_email, if_pos hb, h]
        exact ih as (processPair a b s) e0 hm hna hne
      · have hup := updateEmail_keeps_nonacad s.email b e0 h hna hne
        rcases hup with ⟨e1, he1, hna1, hne1⟩
        have hm : (processPair a b s).email = some e1 := by
          rw [processPair_email, if_neg (by simpa using hb)]
          exact he1
        exact ih as (processPair a b s) e1 hm hna1 hne1

/-- C3: the corresponding-email tie-break.  An email found in an
affiliation is adopted exactly when no email is chosen yet or the new
address is non-academic; hence an academic incumbent is always displaced
by a later non-academic address, and once the chosen email is a
non-academic address the choice stays non-academic through the rest of
the record's affiliation scan — no later academic-looking address ever
replaces it. -/
theorem claim_C3 (cur : Option String) (aff e e0 : String)
    (aus ads : List String) (s : AnalyzeSt)
    (hfind : findEmail aff = some e)
    (hcur : s.email = some e0)
    (h0 : is_academic_email e0 = false) (hne : e0 ≠ "") :
    (emailFalsy cur = true ∨ is_academic_email e = false →
      updateEmail cur aff = some e)
    ∧ (emailFalsy cur = false → is_academic_email e = true →
      updateEmail cur aff = cur)
    ∧ (∃ e', (analyzeLoop aus ads s).email = some e'
        ∧ is_academic_email e' = false ∧ e' ≠ "") := by
  refine ⟨?_, ?_, analyzeLoop_email_nonacad ads aus s e0 hcur h0 hne⟩
  · intro hcase
    unfold updateEmail
    rw [hfind]
    rcases hcase with hc | hc
    · simp [hc]
    · simp [hc]
  · intro hfalsy hacad
    unfold updateEmail
    rw [hfind]
    simp [hfalsy, hacad]

theorem claim_C3_witness :
    findEmail ("Pfizer Inc, contact: jdoe@pfizer.com") = some ("jdoe@pfizer.com")
    ∧ (AnalyzeSt.mk [] [] (some ("jdoe@pfizer.com"))).email
        = some ("jdoe@pfizer.com")
    ∧ is_academic_email ("jdoe@pfizer.com") = false
    ∧ ("jdoe@pfizer.com" : String) ≠ ""
    ∧ ((emailFalsy (some ("a@b.edu")) = true
          ∨ is_academic_email ("jdoe@pfizer.com") = false →
        updateEmail (some ("a@b.edu")) ("Pfizer Inc, contact: jdoe@pfizer.com")
          = some ("jdoe@pfizer.com"))
      ∧ (emailFalsy (some ("a@b.edu")) = false →
          is_academic_email ("jdoe@pfizer.com") = true →
        updateEmail (some ("a@b.edu")) ("Pfizer Inc, contact: jdoe@pfizer.com")
          = some ("a@b.edu"))
      ∧ (∃ e', (analyzeLoop ["Smith J"] ["University X, smith@uni-bonn.edu"]
            (AnalyzeSt.mk [] [] (some ("jdoe@pfizer.com")))).email = some e'
          ∧ is_academic_email e' = false ∧ e' ≠ "")) :=
  ⟨by decide, rfl, by decide, by decide,
    claim_C3 (some ("a@b.edu")) ("Pfizer Inc, contact: jdoe@pfizer.com")
      ("jdoe@pfizer.com") ("jdoe@pfizer.com")
      ["Smith J"] ["University X, smith@uni-bonn.edu"]
      (AnalyzeSt.mk [] [] (some ("jdoe@pfizer.com")))
      (by decide) rfl (by decide) (by decide)⟩

/-! ## Claim C8 -/

theorem analyzeLoop_trunc : ∀ (ads aus : List String) (s : AnalyzeSt),
    analyzeLoop aus ads s
      = analyzeLoop (aus.take ads.length) (ads.take aus.length) s := by
  intro ads
  induction ads with
  | nil => intro aus s; cases aus <;> rfl
  | cons b bs ih =>
    intro aus s
    cases aus with
    | nil => rfl
    | cons a as =>
      show analyzeLoop as bs (processPair a b s)
        = analyzeLoop (a :: as.take bs.length) (b :: bs.take as.length) s
      show analyzeLoop as bs (processPair a b s)
        = analyzeLoop (as.take bs.length) (bs.take as.length) (processPair a b s)
      exact ih as (processPair a b s)

theorem processPair_mem_nonAcad (a b : String) (s : AnalyzeSt) (x : String)
    (hx : x ∈ (processPair a b s).nonAcademic) :
    x ∈ s.nonAcademic
    ∨ (x = a ∧ b ≠ "" ∧ is_academic_affiliation b = false
        ∧ is_company_affiliation b = true) := by
  unfold processPair at hx
  by_cases hb : (b == "") = true
  · rw [if_pos hb] at hx
    exact Or.inl hx
  · rw [if_neg hb] at hx
    by_cases hg : (!is_academic_affiliation b && is_company_affiliation b) = true
    · simp only [hg, if_true] at hx
      rcases List.mem_append.mp hx with hmem | hone
      · exact Or.inl hmem
      · have hxa : x = a := by simpa using hone
        have hcomps : is_academic_affiliation b = false
            ∧ is_company_affiliation b = true := by simpa using hg
        refine Or.inr ⟨hxa, by simpa using hb, hcomps.1, hcomps.2⟩
    · simp only [hg, Bool.false_eq_true, if_false] at hx
      exact Or.inl hx

theorem analyzeLoop_mem_nonAcad : ∀ (ads aus : List String) (s : AnalyzeSt)
    (x : String), x ∈ (analyzeLoop aus ads s).nonAcademic →
    x ∈ s.nonAcademic
    ∨ ∃ i au aff, aus.get? i = some au ∧ ads.get? i = some aff ∧ au = x
        ∧ aff ≠ "" ∧ is_academic_affiliation aff = false
        ∧ is_company_affiliation aff = true := by
  intro ads
  induction ads with
  | nil => intro aus s x hx; cases aus <;> exact Or.inl hx
  | cons b bs ih =>
    intro aus s x hx
    cases aus with
    | nil => exact Or.inl hx
    | cons a as =>
      have hx' : x ∈ (analyzeLoop as bs (processPair a b s)).nonAcademic := hx
      rcases ih as (processPair a b s) x hx' with hmem |
        ⟨i, au, aff, h1, h2, h3, h4, h5, h6⟩
      · rcases processPair_mem_nonAcad a b s x hmem with hmem2 |
          ⟨hxa, hbne, hacad, hcomp⟩
        · exact Or.inl hmem2
        · exact Or.inr ⟨0, a, b, rfl, rfl, hxa.symm, hbne, hacad, hcomp⟩
      · exact Or.inr ⟨i + 1, au, aff, by simpa using h1, by simpa using h2,
          h3, h4, h5, h6⟩

/-- C8: authors and affiliations are paired strictly by equal index and
only the overlapping index range contributes: the analyzer loop is
unchanged by truncating each list to the other's length (so an index out
of range on either side is skipped, and the embedding is a total
function — no out-of-range access can raise); moreover every author in
the non-academic output is the author at some index that also carries a
non-empty, non-academic, company-matching affiliation at the same
index. -/
theorem claim_C8 (aus ads : List String) (s : AnalyzeSt) (x : String) :
    analyzeLoop aus ads s
      = analyzeLoop (aus.take ads.length) (ads.take aus.length) s
    ∧ (x ∈ (analyze_author_affiliations { au := some aus, ad := some ads }).1 →
        ∃ i au aff, aus.get? i = some au ∧ ads.get? i = some aff ∧ au = x
          ∧ aff ≠ "" ∧ is_academic_affiliation aff = false
          ∧ is_company_affiliation aff = true) := by
  refine ⟨analyzeLoop_trunc ads aus s, ?_⟩
  intro hx
  have hx' : x ∈ (analyzeLoop aus ads ⟨[], [], none⟩).nonAcademic := hx
  rcases analyzeLoop_mem_nonAcad ads aus ⟨[], [], none⟩ x hx' with hmem | hex
  · simp at hmem
  · exact hex

theorem claim_C8_witness :
    (analyzeLoop ["Doe A", "Extra"] ["Pfizer Inc, New York"] (AnalyzeSt.mk [] [] none)
        = analyzeLoop (["Doe A", "Extra"].take (["Pfizer Inc, New York"].length))
            ((["Pfizer Inc, New York"]).take (["Doe A", "Extra"].length))
            (AnalyzeSt.mk [] [] none)
      ∧ (("Doe A" : String) ∈ (analyze_author_affiliations
            { au := some ["Doe A", "Extra"],
              ad := some ["Pfizer Inc, New York"] }).1 →
          ∃ i au aff, (["Doe A", "Extra"] : List String).get? i = some au
            ∧ (["Pfizer Inc, New York"] : List String).get? i = some aff
            ∧ au = "Doe A" ∧ aff ≠ ""
            ∧ is_academic_affiliation aff = false
            ∧ is_company_affiliation aff = true)) :=
  claim_C8 ["Doe A", "Extra"] ["Pfizer Inc, New York"] (AnalyzeSt.mk [] [] none)
    ("Doe A")

/-! ## Claim C10 -/

theorem updateEmail_src (cur : Option String) (b e : String)
    (h : updateEmail cur b = some e) : cur = some e ∨ findEmail b = some e := by
  cases hf : findEmail b with
  | none =>
    simp only [updateEmail, hf] at h
    exact Or.inl h
  | some e2 =>
    simp only [updateEmail, hf] at h
    split at h
    · exact Or.inr h
    · exact Or.inl h

theorem analyzeLoop_email_mem : ∀ (ads aus : List String) (s : AnalyzeSt)
    (e : String), (analyzeLoop aus ads s).email = some e →
    s.email = some e
    ∨ ∃ i au aff, aus.get? i = some au ∧ ads.get? i = some aff ∧ aff ≠ ""
        ∧ findEmail aff = some e := by
  intro ads
  induction ads with
  | nil => intro aus s e h; cases aus <;> exact Or.inl h
  | cons b bs ih =>
    intro aus s e h
    cases aus with
    | nil => exact Or.inl h
    | cons a as =>
      have h' : (analyzeLoop as bs (processPair a b s)).email = some e := h
      rcases ih as (processPair a b s) e h' with hmem |
        ⟨i, au, aff, h1, h2, h3, h4⟩
      · rw [processPair_email] at hmem
        by_cases hb : (b == "") = true
        · rw [if_pos hb] at hmem
          exact Or.inl hmem
        · rw [if_neg hb] at hmem
          rcases updateEmail_src s.email b e hmem with hcur | hfound
          · exact Or.inl hcur
          · exact Or.inr ⟨0, a, b, rfl, rfl, by simpa using hb, hfound⟩
      · exact Or.inr ⟨i + 1, au, aff, by simpa using h1, by simpa using h2,
          h3, h4⟩

/-- C10: an email embedded in an affiliation can become the corresponding
email only when that affiliation sits at an index that also has a paired
author entry and the affiliation is non-empty; and when either the `AU`
key or the `AD` key is absent the analyzer returns `([], [], None)`
immediately, so no affiliation is scanned for emails at all. -/
theorem claim_C10 (art : Article) (aus ads : List String) (e : String) :
    (art.au = none ∨ art.ad = none →
      analyze_author_affiliations art = ([], [], none))
    ∧ ((analyze_author_affiliations { au := some aus, ad := some ads }).2.2
          = some e →
        ∃ i au aff, aus.get? i = some au ∧ ads.get? i = some aff ∧ aff ≠ ""
          ∧ findEmail aff = some e) := by
  constructor
  · intro hmiss
    unfold analyze_author_affiliations
    rcases hmiss with hau | had
    · rw [hau]
    · rw [had]
      cases art.au <;> rfl
  · intro h
    have h' : (analyzeLoop aus ads ⟨[], [], none⟩).email = some e := h
    rcases analyzeLoop_email_mem ads aus ⟨[], [], none⟩ e h' with hmem | hex
    · simp at hmem
    · exact hex

theorem claim_C10_witness :
    ((({ ad := some ["Pfizer, jdoe@pfizer.com"] } : Article).au = none
        ∨ ({ ad := some ["Pfizer, jdoe@pfizer.com"] } : Article).ad = none →
      analyze_author_affiliations { ad := some ["Pfizer, jdoe@pfizer.com"] }
        = ([], [], none))
    ∧ ((analyze_author_affiliations
          { au := some ["Doe A"],
            ad := some ["Pfizer Inc, contact: jdoe@pfizer.com"] }).2.2
        = some ("jdoe@pfizer.com") →
      ∃ i au aff, (["Doe A"] : List String).get? i = some au
        ∧ (["Pfizer Inc, contact: jdoe@pfizer.com"] : List String).get? i = some aff
        ∧ aff ≠ "" ∧ findEmail aff = some ("jdoe@pfizer.com"))) :=
  claim_C10 { ad := some ["Pfizer, jdoe@pfizer.com"] } ["Doe A"]
    ["Pfizer Inc, contact: jdoe@pfizer.com"] ("jdoe@pfizer.com")
